import Mathlib

set_option linter.unusedVariables false

/-
Shallow embedding of the PowerupManager class (src/unnamed/part_000, the
powerups.js module) of the tile-matching puzzle game repository.

Modelling choices, matched to the JavaScript source:
  * The manager's mutable fields (`powerupData`, `activePowerups`) together
    with the engine-side collaborators the code drives (the sprite list, the
    registered overlap watches, the scheduled `delayedCall` timers,
    `console.warn` output, and `scene.time.now`) form one explicit state
    record `PState`; every method is a state transformer.
  * Powerup `effect` callbacks are opaque capabilities `(subject, bool)`; an
    invocation `effect(player, b)` is modelled as appending an `EffectCall`
    event to an append-only log, so "the effect fires exactly once" becomes a
    statement about how many matching events the log holds.
  * JavaScript object identity (the `indexOf(activePowerup)` lookup in
    `deactivatePowerup`) is modelled by a unique numeric `id` stamped on each
    sprite and each ActivePowerup from a monotone `nextId` counter;
    `removeFirstById` mirrors `indexOf` + `splice(index, 1)` exactly: it
    removes the first entry whose id matches, or does nothing when absent.
  * There is a single subject (`scene.player`), so effect events do not carry
    the subject.
-/

namespace Powerups

/-- Static powerup definition, one row of the `powerupData` table supplied to
the constructor: `{ spriteKey, duration, effect }`; the effect capability is
identified by the powerup type. -/
structure PowerupDef where
  spriteKey : String
  duration : Nat
  deriving Repr, DecidableEq

/-- Engine-side sprite standing for a spawned powerup, as configured by
`createPowerup`: position, texture, and the `setData` metadata
(`type`, `duration`; the effect capability is determined by the type).
`disabled` records a `disableBody(true, true)` call. -/
structure Representation where
  id : Nat
  x : Int
  y : Int
  spriteKey : String
  ptype : String
  duration : Nat
  disabled : Bool
  deriving Repr, DecidableEq

/-- One entry of `this.activePowerups`, as built by `activatePowerup`:
`{ type, duration, effect, expirationTime: this.scene.time.now + duration }`.
The `id` stands for JavaScript object identity. -/
structure ActivePowerup where
  id : Nat
  ptype : String
  duration : Nat
  expirationTime : Nat
  deriving Repr, DecidableEq

/-- A recorded invocation `effect(player, activating)` of the effect
capability of powerup type `ptype`, on behalf of the ActivePowerup whose
identity is `apId` (for activation events, the entry being created). -/
structure EffectCall where
  apId : Nat
  ptype : String
  activating : Bool
  deriving Repr, DecidableEq

/-- A pending `scene.time.delayedCall(duration, deactivatePowerup, [activePowerup, player])`:
it will invoke `deactivatePowerup` on the entry with identity `apId`. -/
structure Timer where
  fireTime : Nat
  apId : Nat
  deriving Repr, DecidableEq

/-- The manager state plus the engine collaborators the source code drives. -/
structure PState where
  powerupData : List (String × PowerupDef)
  representations : List Representation
  overlapWatches : List Nat
  activePowerups : List ActivePowerup
  timers : List Timer
  effectLog : List EffectCall
  warnings : List String
  now : Nat
  nextId : Nat
  deriving Repr, DecidableEq

/-- The `console.warn` text emitted by `createPowerup` for an unknown type. -/
def warnMsg (ptype : String) : String :=
  "Powerup type \"" ++ ptype ++ "\" not found in powerup data."

/-- Embedding of `PowerupManager.createPowerup(type, x, y)`: when `type` is
absent from `powerupData` it only warns and returns; otherwise it creates a
sprite at `(x, y)` carrying the `(type, duration, effect)` metadata and
registers an overlap watch between the player and that sprite. -/
def createPowerup (s : PState) (ptype : String) (x y : Int) : PState :=
  match s.powerupData.lookup ptype with
  | none => { s with warnings := s.warnings ++ [warnMsg ptype] }
  | some d =>
      let powerup : Representation :=
        { id := s.nextId, x := x, y := y, spriteKey := d.spriteKey,
          ptype := ptype, duration := d.duration, disabled := false }
      { s with
          representations := s.representations ++ [powerup],
          overlapWatches := s.overlapWatches ++ [powerup.id],
          nextId := s.nextId + 1 }

/-- Helper for `powerup.disableBody(true, true)`: the sprite with the given
identity becomes disabled. -/
def disableRep (reps : List Representation) (repId : Nat) : List Representation :=
  reps.map (fun r => if r.id = repId then { r with disabled := true } else r)

/-- Embedding of `PowerupManager.activatePowerup(player, powerup)`: reads the
metadata off the sprite, disables the sprite, appends a fresh ActivePowerup
with `expirationTime = scene.time.now + duration`, invokes
`effect(player, true)`, and schedules a one-shot `delayedCall` of
`deactivatePowerup` for that entry after `duration` milliseconds. -/
def activatePowerup (s : PState) (powerup : Representation) : PState :=
  let activePowerup : ActivePowerup :=
    { id := s.nextId, ptype := powerup.ptype, duration := powerup.duration,
      expirationTime := s.now + powerup.duration }
  { s with
      representations := disableRep s.representations powerup.id,
      activePowerups := s.activePowerups ++ [activePowerup],
      effectLog := s.effectLog ++ [⟨activePowerup.id, powerup.ptype, true⟩],
      timers := s.timers ++ [⟨s.now + powerup.duration, activePowerup.id⟩],
      nextId := s.nextId + 1 }

/-- Mirrors `this.activePowerups.indexOf(activePowerup)` followed by
`splice(index, 1)`: removes the first entry with the given identity and
returns it together with the remaining list, or `none` when `indexOf`
returns `-1`. -/
def removeFirstById : List ActivePowerup → Nat → Option (ActivePowerup × List ActivePowerup)
  | [], _ => none
  | p :: rest, apId =>
      if p.id = apId then some (p, rest)
      else
        match removeFirstById rest apId with
        | none => none
        | some (q, rest2) => some (q, p :: rest2)

/-- Embedding of `PowerupManager.deactivatePowerup(activePowerup, player)`:
when the entry is still in `activePowerups` it is spliced out and then
`activePowerup.effect(player, false)` is invoked; when `indexOf` returns
`-1` nothing happens. -/
def deactivatePowerup (s : PState) (apId : Nat) : PState :=
  match removeFirstById s.activePowerups apId with
  | none => s
  | some (ap, rest) =>
      { s with
          activePowerups := rest,
          effectLog := s.effectLog ++ [⟨apId, ap.ptype, false⟩] }

/-- Embedding of `PowerupManager.update(time, delta)`: filters the snapshot of
entries with `time >= expirationTime` and calls `deactivatePowerup` on each
(`delta` is unused by the source). -/
def update (s : PState) (time : Nat) (delta : Nat) : PState :=
  let expiredPowerups := s.activePowerups.filter (fun p => decide (p.expirationTime ≤ time))
  expiredPowerups.foldl (fun st p => deactivatePowerup st p.id) s

/-- Identities of the entries currently in the active set. -/
def activeIds (s : PState) : List Nat :=
  s.activePowerups.map (fun p => p.id)

/-- Number of entries of the active set carrying a given identity. -/
def countId (l : List ActivePowerup) (a : Nat) : Nat :=
  (l.filter (fun p => decide (p.id = a))).length

/-- Number of logged reversal invocations `effect(player, false)` for the
entry with identity `a`. -/
def countFalse (s : PState) (a : Nat) : Nat :=
  (s.effectLog.filter (fun e => decide (e.apId = a) && !e.activating)).length

/-- A concrete definition table row used to instantiate the theorems below. -/
def demoDef : PowerupDef := { spriteKey := "spriteSpeed", duration := 1000 }

/-- A concrete spawned-powerup sprite used to instantiate the theorems below. -/
def demoRep : Representation :=
  { id := 0, x := 10, y := 10, spriteKey := "spriteSpeed", ptype := "speed",
    duration := 1000, disabled := false }

/-- A concrete manager state used to instantiate the theorems below. -/
def demoState : PState :=
  { powerupData := [("speed", demoDef)], representations := [demoRep],
    overlapWatches := [0], activePowerups := [], timers := [], effectLog := [],
    warnings := [], now := 5, nextId := 1 }

theorem removeFirstById_none_iff (l : List ActivePowerup) (a : Nat) :
    removeFirstById l a = none ↔ ∀ p ∈ l, p.id ≠ a := by
  induction l with
  | nil => simp [removeFirstById]
  | cons p rest ih =>
      by_cases hp : p.id = a
      · simp [removeFirstById, hp]
      · cases hr : removeFirstById rest a with
        | none =>
            simp only [removeFirstById, if_neg hp, hr, List.mem_cons]
            constructor
            · intro _ q hq
              rcases hq with rfl | hq
              · exact hp
              · exact ih.mp hr q hq
            · intro _; trivial
        | some qr =>
            obtain ⟨q', r'⟩ := qr
            simp only [removeFirstById, if_neg hp, hr, List.mem_cons]
            constructor
            · intro h; cases h
            · intro h
              have hnone : removeFirstById rest a = none :=
                ih.mpr (fun q hq => h q (Or.inr hq))
              rw [hnone] at hr; cases hr

theorem removeFirstById_some (l : List ActivePowerup) (a : Nat) (q : ActivePowerup)
    (r : List ActivePowerup) (h : removeFirstById l a = some (q, r)) :
    q.id = a ∧ q ∈ l ∧ l.length = r.length + 1 := by
  induction l generalizing r with
  | nil => simp [removeFirstById] at h
  | cons p rest ih =>
      by_cases hp : p.id = a
      · simp only [removeFirstById, if_pos hp, Option.some.injEq, Prod.mk.injEq] at h
        obtain ⟨h1, h2⟩ := h
        subst h1; subst h2
        exact ⟨hp, List.mem_cons_self _ _, rfl⟩
      · cases hr : removeFirstById rest a with
        | none => simp [removeFirstById, hp, hr] at h
        | some qr =>
            obtain ⟨q', r'⟩ := qr
            simp only [removeFirstById, if_neg hp, hr, Option.some.injEq,
              Prod.mk.injEq] at h
            obtain ⟨h1, h2⟩ := h
            subst h1
            obtain ⟨hq, hmem, hlen⟩ := ih r' hr
            subst h2
            exact ⟨hq, List.mem_cons_of_mem _ hmem, by simp [hlen]⟩

theorem deactivatePowerup_length_le (s : PState) (apId : Nat) :
    (deactivatePowerup s apId).activePowerups.length ≤ s.activePowerups.length := by
  unfold deactivatePowerup
  cases h : removeFirstById s.activePowerups apId with
  | none => simp
  | some qr =>
      obtain ⟨q, r⟩ := qr
      have hlen := (removeFirstById_some _ _ _ _ h).2.2
      simp [hlen]

theorem foldl_deactivate_length_le (es : List ActivePowerup) (s : PState) :
    (es.foldl (fun st p => deactivatePowerup st p.id) s).activePowerups.length
      ≤ s.activePowerups.length := by
  induction es generalizing s with
  | nil => simp
  | cons e es ih =>
      simp only [List.foldl_cons]
      exact le_trans (ih (deactivatePowerup s e.id)) (deactivatePowerup_length_le s e.id)

theorem update_length_le (s : PState) (t d : Nat) :
    (update s t d).activePowerups.length ≤ s.activePowerups.length := by
  unfold update
  exact foldl_deactivate_length_le _ s

theorem countId_eq_zero_iff (l : List ActivePowerup) (a : Nat) :
    countId l a = 0 ↔ ∀ p ∈ l, p.id ≠ a := by
  simp [countId, List.length_eq_zero, List.filter_eq_nil_iff]

theorem removeFirstById_countId_self (l : List ActivePowerup) (a : Nat)
    (q : ActivePowerup) (r : List ActivePowerup)
    (h : removeFirstById l a = some (q, r)) :
    countId l a = countId r a + 1 := by
  induction l generalizing r with
  | nil => simp [removeFirstById] at h
  | cons p rest ih =>
      by_cases hp : p.id = a
      · simp only [removeFirstById, if_pos hp, Option.some.injEq, Prod.mk.injEq] at h
        obtain ⟨h1, h2⟩ := h
        subst h1; subst h2
        simp [countId, hp]
      · cases hr : removeFirstById rest a with
        | none => simp [removeFirstById, hp, hr] at h
        | some qr =>
            obtain ⟨q', r'⟩ := qr
            simp only [removeFirstById, if_neg hp, hr, Option.some.injEq,
              Prod.mk.injEq] at h
            obtain ⟨h1, h2⟩ := h
            subst h1; subst h2
            have := ih r' hr
            simp [countId, hp] at this ⊢
            omega

theorem removeFirstById_countId_other (l : List ActivePowerup) (a b : Nat)
    (q : ActivePowerup) (r : List ActivePowerup)
    (h : removeFirstById l a = some (q, r)) (hab : b ≠ a) :
    countId r b = countId l b := by
  induction l generalizing r with
  | nil => simp [removeFirstById] at h
  | cons p rest ih =>
      by_cases hp : p.id = a
      · simp only [removeFirstById, if_pos hp, Option.some.injEq, Prod.mk.injEq] at h
        obtain ⟨h1, h2⟩ := h
        subst h1; subst h2
        have hpb : ¬ p.id = b := by rw [hp]; exact fun hh => hab hh.symm
        simp [countId, hpb]
      · cases hr : removeFirstById rest a with
        | none => simp [removeFirstById, hp, hr] at h
        | some qr =>
            obtain ⟨q', r'⟩ := qr
            simp only [removeFirstById, if_neg hp, hr, Option.some.injEq,
              Prod.mk.injEq] at h
            obtain ⟨h1, h2⟩ := h
            subst h1; subst h2
            have := ih r' hr
            by_cases hpb : p.id = b <;> simp [countId, hpb] at this ⊢ <;> omega

theorem mem_unique_of_countId_le_one (l : List ActivePowerup) (a : Nat)
    (h : countId l a ≤ 1) (q p : ActivePowerup) (hq : q ∈ l) (hqa : q.id = a)
    (hp : p ∈ l) (hpa : p.id = a) : q = p := by
  have hqf : q ∈ l.filter (fun x => decide (x.id = a)) := by
    simp [List.mem_filter, hq, hqa]
  have hpf : p ∈ l.filter (fun x => decide (x.id = a)) := by
    simp [List.mem_filter, hp, hpa]
  have hlen : (l.filter (fun x => decide (x.id = a))).length ≤ 1 := h
  rcases hf : l.filter (fun x => decide (x.id = a)) with _ | ⟨x, xs⟩
  · rw [hf] at hqf; cases hqf
  · rw [hf] at hqf hpf hlen
    have hxs : xs = [] := by
      simp only [List.length_cons] at hlen
      exact List.length_eq_zero.mp (by omega)
    subst hxs
    simp only [List.mem_singleton] at hqf hpf
    rw [hqf, hpf]

theorem removeFirstById_append (l1 l2 : List ActivePowerup) (q : ActivePowerup)
    (h : ∀ p ∈ l1, p.id ≠ q.id) :
    removeFirstById (l1 ++ q :: l2) q.id = some (q, l1 ++ l2) := by
  induction l1 with
  | nil => simp [removeFirstById]
  | cons p rest ih =>
      have hp : p.id ≠ q.id := h p (List.mem_cons_self _ _)
      have ih2 := ih (fun x hx => h x (List.mem_cons_of_mem _ hx))
      simp only [List.cons_append, removeFirstById, if_neg hp, List.append_eq, ih2]

/-- C4: activatePowerup disables the representation, appends exactly one new
ActivePowerup whose expirationTime is the current time plus the duration
(growing the active set by exactly one), logs exactly one synchronous
`effect(player, true)` invocation, and schedules a one-shot deferred
deactivatePowerup call for that entry after `duration` milliseconds. -/
theorem C4_activate_appends_one (s : PState) (powerup : Representation) :
    (activatePowerup s powerup).activePowerups
        = s.activePowerups
            ++ [⟨s.nextId, powerup.ptype, powerup.duration, s.now + powerup.duration⟩] ∧
    (activatePowerup s powerup).activePowerups.length = s.activePowerups.length + 1 ∧
    (activatePowerup s powerup).effectLog
        = s.effectLog ++ [⟨s.nextId, powerup.ptype, true⟩] ∧
    (activatePowerup s powerup).timers
        = s.timers ++ [⟨s.now + powerup.duration, s.nextId⟩] ∧
    (∀ r ∈ (activatePowerup s powerup).representations,
        r.id = powerup.id → r.disabled = true) := by
  refine ⟨rfl, by simp [activatePowerup], rfl, rfl, ?_⟩
  intro r hr hid
  simp only [activatePowerup, disableRep, List.mem_map] at hr
  obtain ⟨r0, hr0, hmap⟩ := hr
  by_cases h0 : r0.id = powerup.id
  · rw [if_pos h0] at hmap
    rw [← hmap]
  · rw [if_neg h0] at hmap
    rw [← hmap] at hid
    exact absurd hid h0

/-- Witness for C4 at a concrete state: the active set grows by one and the
disabled copy of the consumed sprite is indeed disabled. -/
theorem C4_activate_appends_one_witness :
    (activatePowerup demoState demoRep).activePowerups.length
        = demoState.activePowerups.length + 1 ∧
    Representation.disabled { demoRep with disabled := true } = true :=
  ⟨(C4_activate_appends_one demoState demoRep).2.1,
    (C4_activate_appends_one demoState demoRep).2.2.2.2
      { demoRep with disabled := true } (by decide) (by decide)⟩

/-- C5: createPowerup on a type absent from the definition table only emits a
diagnostic warning: no representation is created, no overlap watch is
registered, the active set and the effect log are unchanged, and the call
returns normally (the whole state change is the appended warning). -/
theorem C5_unknown_type_warns_only (s : PState) (ptype : String) (x y : Int)
    (h : s.powerupData.lookup ptype = none) :
    createPowerup s ptype x y = { s with warnings := s.warnings ++ [warnMsg ptype] } ∧
    (createPowerup s ptype x y).activePowerups = s.activePowerups ∧
    (createPowerup s ptype x y).representations = s.representations ∧
    (createPowerup s ptype x y).overlapWatches = s.overlapWatches ∧
    (createPowerup s ptype x y).effectLog = s.effectLog ∧
    (createPowerup s ptype x y).warnings = s.warnings ++ [warnMsg ptype] := by
  simp [createPowerup, h]

/-- Witness for C5 at a concrete state: the type "shield" is unregistered and
spawning it leaves the active set unchanged. -/
theorem C5_unknown_type_warns_only_witness :
    demoState.powerupData.lookup "shield" = none ∧
    (createPowerup demoState "shield" 3 4).activePowerups = demoState.activePowerups :=
  ⟨by decide, (C5_unknown_type_warns_only demoState "shield" 3 4 (by decide)).2.1⟩

/-- C10: only activatePowerup grows the active set: createPowerup leaves it
unchanged, and deactivatePowerup and update never increase its length. -/
theorem C10_growth_only_by_activate (s : PState) (ptype : String) (x y : Int)
    (t d apId : Nat) :
    (createPowerup s ptype x y).activePowerups = s.activePowerups ∧
    (deactivatePowerup s apId).activePowerups.length ≤ s.activePowerups.length ∧
    (update s t d).activePowerups.length ≤ s.activePowerups.length := by
  refine ⟨?_, deactivatePowerup_length_le s apId, update_length_le s t d⟩
  cases h : s.powerupData.lookup ptype with
  | none => simp [createPowerup, h]
  | some d0 => simp [createPowerup, h]

theorem countId_cons_pos (p : ActivePowerup) (rest : List ActivePowerup) (a : Nat)
    (hp : p.id = a) : countId (p :: rest) a = countId rest a + 1 := by
  simp [countId, List.filter_cons, hp]

theorem countId_cons_neg (p : ActivePowerup) (rest : List ActivePowerup) (a : Nat)
    (hp : ¬ p.id = a) : countId (p :: rest) a = countId rest a := by
  simp [countId, List.filter_cons, hp]

theorem countId_le_one_of_nodup (l : List ActivePowerup)
    (hnd : (l.map (fun p => p.id)).Nodup) (a : Nat) : countId l a ≤ 1 := by
  induction l with
  | nil => simp [countId]
  | cons p rest ih =>
      simp only [List.map_cons, List.nodup_cons] at hnd
      by_cases hp : p.id = a
      · have hz : countId rest a = 0 := by
          rw [countId_eq_zero_iff]
          intro q hq hqa
          exact hnd.1 (hp ▸ hqa ▸ List.mem_map_of_mem (fun p => p.id) hq)
        rw [countId_cons_pos p rest a hp]
        omega
      · rw [countId_cons_neg p rest a hp]
        exact ih hnd.2

theorem countId_pos_of_mem (l : List ActivePowerup) (p : ActivePowerup)
    (h : p ∈ l) : 1 ≤ countId l p.id := by
  have : p ∈ l.filter (fun q => decide (q.id = p.id)) := by
    simp [List.mem_filter, h]
  calc 1 ≤ _ := List.length_pos.mpr (List.ne_nil_of_mem this)

theorem removeFirstById_of_unique (l : List ActivePowerup) (a : Nat)
    (hcount : countId l a ≤ 1) (q : ActivePowerup) (r : List ActivePowerup)
    (h : removeFirstById l a = some (q, r)) :
    r = l.filter (fun p => decide (¬ p.id = a)) := by
  induction l generalizing r with
  | nil => simp [removeFirstById] at h
  | cons p rest ih =>
      by_cases hp : p.id = a
      · simp only [removeFirstById, if_pos hp, Option.some.injEq, Prod.mk.injEq] at h
        obtain ⟨h1, h2⟩ := h
        subst h1; subst h2
        have hz : countId rest a = 0 := by
          rw [countId_cons_pos p rest a hp] at hcount
          omega
        have hall := (countId_eq_zero_iff _ _).mp hz
        have hkeep : rest.filter (fun x => decide (¬ x.id = a)) = rest :=
          List.filter_eq_self.mpr (fun x hx => by simp [hall x hx])
        have hstep : (p :: rest).filter (fun x => decide (¬ x.id = a))
            = rest.filter (fun x => decide (¬ x.id = a)) := by
          simp [hp]
        rw [hstep, hkeep]
      · cases hr : removeFirstById rest a with
        | none => simp [removeFirstById, hp, hr] at h
        | some qr =>
            obtain ⟨q', r'⟩ := qr
            simp only [removeFirstById, if_neg hp, hr, Option.some.injEq,
              Prod.mk.injEq] at h
            obtain ⟨h1, h2⟩ := h
            subst h1; subst h2
            have hcrest : countId rest a ≤ 1 := by
              rw [countId_cons_neg p rest a hp] at hcount
              exact hcount
            have hrec := ih hcrest r' hr
            have hstep : (p :: rest).filter (fun x => decide (¬ x.id = a))
                = p :: rest.filter (fun x => decide (¬ x.id = a)) := by
              simp [hp]
            rw [hstep, ← hrec]

theorem foldl_deactivate_char (es : List ActivePowerup) (s : PState)
    (hsub : ∀ e ∈ es, e ∈ s.activePowerups)
    (hnd : (s.activePowerups.map (fun p => p.id)).Nodup)
    (hnde : (es.map (fun p => p.id)).Nodup) :
    (es.foldl (fun st p => deactivatePowerup st p.id) s).activePowerups
        = s.activePowerups.filter (fun p => decide (∀ e ∈ es, p.id ≠ e.id)) ∧
    (es.foldl (fun st p => deactivatePowerup st p.id) s).effectLog
        = s.effectLog ++ es.map (fun p => (⟨p.id, p.ptype, false⟩ : EffectCall)) := by
  induction es generalizing s with
  | nil =>
      refine ⟨?_, by simp⟩
      rw [List.foldl_nil, (List.filter_eq_self (l := s.activePowerups)).mpr]
      intro x hx; simp
  | cons e es ih =>
      have hemem : e ∈ s.activePowerups := hsub e (List.mem_cons_self _ _)
      have hcount : countId s.activePowerups e.id ≤ 1 :=
        countId_le_one_of_nodup _ hnd e.id
      simp only [List.map_cons, List.nodup_cons] at hnde
      cases hrf : removeFirstById s.activePowerups e.id with
      | none => exact absurd rfl ((removeFirstById_none_iff _ _).mp hrf e hemem)
      | some qr =>
          obtain ⟨q, r⟩ := qr
          obtain ⟨hqa, hqmem, hlen⟩ := removeFirstById_some _ _ _ _ hrf
          have hq : q = e :=
            mem_unique_of_countId_le_one _ _ hcount q e hqmem hqa hemem rfl
          subst hq
          have hrfil : r = s.activePowerups.filter (fun p => decide (¬ p.id = q.id)) :=
            removeFirstById_of_unique _ _ hcount _ _ hrf
          have hdeact : deactivatePowerup s q.id
              = { s with activePowerups := r,
                         effectLog := s.effectLog ++ [⟨q.id, q.ptype, false⟩] } := by
            unfold deactivatePowerup; rw [hrf]
          have hsub' : ∀ x ∈ es, x ∈ r := by
            intro x hx
            have hxid : x.id ≠ q.id := by
              intro hxe
              exact hnde.1 (hxe ▸ List.mem_map_of_mem (fun p => p.id) hx)
            rw [hrfil]
            exact List.mem_filter.mpr ⟨hsub x (List.mem_cons_of_mem _ hx), by simp [hxid]⟩
          have hnd' : (r.map (fun p => p.id)).Nodup := by
            rw [hrfil]
            exact hnd.sublist ((List.filter_sublist _).map _)
          have ihr := ih { s with activePowerups := r,
                                  effectLog := s.effectLog ++ [⟨q.id, q.ptype, false⟩] }
            hsub' hnd' hnde.2
          rw [List.foldl_cons, hdeact]
          refine ⟨?_, ?_⟩
          · rw [ihr.1]
            show (r.filter _) = _
            rw [hrfil, List.filter_filter]
            refine List.filter_congr ?_
            intro a ha
            simp only [List.forall_mem_cons, Bool.decide_and, decide_not]
            rw [Bool.and_comm]
          · rw [ihr.2]
            show s.effectLog ++ [_] ++ _ = _
            rw [List.append_assoc, List.map_cons]
            rfl

theorem update_char (s : PState) (t d : Nat)
    (hnd : (s.activePowerups.map (fun p => p.id)).Nodup) :
    (update s t d).activePowerups
        = s.activePowerups.filter (fun p => decide (¬ p.expirationTime ≤ t)) ∧
    (update s t d).effectLog
        = s.effectLog
            ++ (s.activePowerups.filter (fun p => decide (p.expirationTime ≤ t))).map
                 (fun p => (⟨p.id, p.ptype, false⟩ : EffectCall)) := by
  unfold update
  have hsub : ∀ e ∈ s.activePowerups.filter (fun p => decide (p.expirationTime ≤ t)),
      e ∈ s.activePowerups := fun e he => List.mem_of_mem_filter he
  have hnde : ((s.activePowerups.filter
      (fun p => decide (p.expirationTime ≤ t))).map (fun p => p.id)).Nodup :=
    hnd.sublist ((List.filter_sublist _).map _)
  obtain ⟨h1, h2⟩ := foldl_deactivate_char _ s hsub hnd hnde
  refine ⟨?_, h2⟩
  rw [h1]
  refine List.filter_congr ?_
  intro p hp
  have hiff : (∀ e ∈ s.activePowerups.filter (fun p => decide (p.expirationTime ≤ t)),
      p.id ≠ e.id) ↔ ¬ p.expirationTime ≤ t := by
    constructor
    · intro hall hexp
      exact hall p (List.mem_filter.mpr ⟨hp, by simp [hexp]⟩) rfl
    · intro hexp e he hid
      have hel : e ∈ s.activePowerups := List.mem_of_mem_filter he
      have : p = e := List.inj_on_of_nodup_map hnd hp hel hid
      subst this
      exact hexp (of_decide_eq_true (List.mem_filter.mp he).2)
  exact decide_eq_decide.mpr hiff

/-- A concrete ActivePowerup as produced by activating `demoRep` in
`demoState`. -/
def demoAp : ActivePowerup :=
  { id := 1, ptype := "speed", duration := 1000, expirationTime := 1005 }

/-- A concrete state holding exactly one active powerup. -/
def demoState2 : PState :=
  { demoState with activePowerups := [demoAp], timers := [⟨1005, 1⟩],
                   effectLog := [⟨1, "speed", true⟩], nextId := 2 }

/-- C1: deactivatePowerup is idempotent: on an entry present (once, as object
identity guarantees in every reachable state) in the active set, the first
call removes it and logs exactly one `effect(player, false)` invocation, and
a second call on the same entry finds it absent and changes nothing. -/
theorem C1_deactivate_idempotent (s : PState) (ap : ActivePowerup)
    (hmem : ap ∈ s.activePowerups)
    (huniq : countId s.activePowerups ap.id ≤ 1) :
    (deactivatePowerup s ap.id).effectLog
        = s.effectLog ++ [⟨ap.id, ap.ptype, false⟩] ∧
    countId (deactivatePowerup s ap.id).activePowerups ap.id = 0 ∧
    deactivatePowerup (deactivatePowerup s ap.id) ap.id = deactivatePowerup s ap.id := by
  cases hr : removeFirstById s.activePowerups ap.id with
  | none => exact absurd rfl ((removeFirstById_none_iff _ _).mp hr ap hmem)
  | some qr =>
      obtain ⟨q, r⟩ := qr
      obtain ⟨hqa, hqmem, hlen⟩ := removeFirstById_some _ _ _ _ hr
      have hq : q = ap :=
        mem_unique_of_countId_le_one _ _ huniq q ap hqmem hqa hmem rfl
      subst hq
      have h1 := removeFirstById_countId_self _ _ _ _ hr
      have hcnt : countId r q.id = 0 := by omega
      have hdeact : deactivatePowerup s q.id
          = { s with activePowerups := r,
                     effectLog := s.effectLog ++ [⟨q.id, q.ptype, false⟩] } := by
        unfold deactivatePowerup; rw [hr]
      refine ⟨by rw [hdeact], by rw [hdeact]; exact hcnt, ?_⟩
      rw [hdeact]
      have hnone : removeFirstById r q.id = none :=
        (removeFirstById_none_iff _ _).mpr ((countId_eq_zero_iff _ _).mp hcnt)
      unfold deactivatePowerup
      simp [hnone]

/-- Witness for C1 at a concrete one-entry state: the second deactivation is
a no-op. -/
theorem C1_deactivate_idempotent_witness :
    demoAp ∈ demoState2.activePowerups ∧
    countId demoState2.activePowerups demoAp.id ≤ 1 ∧
    deactivatePowerup (deactivatePowerup demoState2 demoAp.id) demoAp.id
        = deactivatePowerup demoState2 demoAp.id :=
  ⟨by decide, by decide,
    (C1_deactivate_idempotent demoState2 demoAp (by decide) (by decide)).2.2⟩

/-- A second concrete active entry of the same type as `demoAp` but with its
own identity. -/
def demoAp2 : ActivePowerup :=
  { id := 2, ptype := "speed", duration := 1000, expirationTime := 1005 }

/-- A concrete state holding two simultaneously active powerups of the same
type. -/
def demoState3 : PState :=
  { demoState with activePowerups := [demoAp, demoAp2], nextId := 3 }

/-- C6: deactivatePowerup removes entries by identity: when the active set is
`l1 ++ [ap] ++ l2` and no entry before `ap` shares its identity (the
`indexOf` lookup finds `ap` itself), deactivating `ap` removes exactly that
entry — every other entry, duplicate types included, stays in place — and
logs `ap`'s reversal only. -/
theorem C6_removal_by_identity (s : PState) (l1 l2 : List ActivePowerup)
    (ap : ActivePowerup)
    (hset : s.activePowerups = l1 ++ ap :: l2)
    (hfirst : ∀ p ∈ l1, p.id ≠ ap.id) :
    (deactivatePowerup s ap.id).activePowerups = l1 ++ l2 ∧
    (deactivatePowerup s ap.id).effectLog
        = s.effectLog ++ [⟨ap.id, ap.ptype, false⟩] := by
  unfold deactivatePowerup
  rw [hset, removeFirstById_append l1 l2 ap hfirst]
  exact ⟨rfl, rfl⟩

/-- Witness for C6 at a concrete two-entry state with duplicate types:
removing the second entry keeps the first untouched. -/
theorem C6_removal_by_identity_witness :
    (deactivatePowerup demoState3 demoAp2.id).activePowerups = [demoAp] := by
  have h := C6_removal_by_identity demoState3 [demoAp] [] demoAp2 (by decide) (by decide)
  simpa using h.1

/-- C9: in deactivatePowerup the splice happens before the reversal effect
runs: the state in which `effect(player, false)` executes already lacks the
entry, so even a reversal effect that reentrantly calls deactivatePowerup on
the same entry performs a no-op and cannot fire the reversal twice. -/
theorem C9_removal_precedes_reversal (s : PState) (apId : Nat)
    (q : ActivePowerup) (rest : List ActivePowerup)
    (huniq : countId s.activePowerups apId ≤ 1)
    (h : removeFirstById s.activePowerups apId = some (q, rest)) :
    deactivatePowerup s apId
        = { s with activePowerups := rest,
                   effectLog := s.effectLog ++ [⟨apId, q.ptype, false⟩] } ∧
    countId rest apId = 0 ∧
    deactivatePowerup { s with activePowerups := rest } apId
        = { s with activePowerups := rest } := by
  have h1 := removeFirstById_countId_self _ _ _ _ h
  have hcnt : countId rest apId = 0 := by omega
  refine ⟨by unfold deactivatePowerup; rw [h], hcnt, ?_⟩
  have hnone : removeFirstById rest apId = none :=
    (removeFirstById_none_iff _ _).mpr ((countId_eq_zero_iff _ _).mp hcnt)
  unfold deactivatePowerup
  simp [hnone]

/-- Witness for C9 at a concrete one-entry state: the mid-call state (entry
spliced out, effect not yet run) is a fixed point of deactivatePowerup. -/
theorem C9_removal_precedes_reversal_witness :
    countId demoState2.activePowerups demoAp.id ≤ 1 ∧
    removeFirstById demoState2.activePowerups demoAp.id = some (demoAp, []) ∧
    deactivatePowerup { demoState2 with activePowerups := [] } demoAp.id
        = { demoState2 with activePowerups := [] } :=
  ⟨by decide, by decide,
    (C9_removal_precedes_reversal demoState2 demoAp.id demoAp []
      (by decide) (by decide)).2.2⟩

theorem countFalseL_map_ev (es : List ActivePowerup) (a : Nat) :
    ((es.map (fun p => (⟨p.id, p.ptype, false⟩ : EffectCall))).filter
        (fun e => decide (e.apId = a) && !e.activating)).length
      = countId es a := by
  induction es with
  | nil => simp [countId]
  | cons e es ih =>
      by_cases he : e.id = a
      · simp [List.filter_cons, he, countId_cons_pos e es a he, ih]
      · simp [List.filter_cons, he, countId_cons_neg e es a he, ih]

/-- C3: update(time, delta) deactivates exactly the expired entries: an entry
with time < expirationTime stays in the active set with no reversal logged
for it, while an entry with expirationTime <= time is removed and exactly
one `effect(subject, false)` is logged for it. -/
theorem C3_update_deactivates_exactly_expired (s : PState) (t d : Nat)
    (p : ActivePowerup)
    (hnd : (s.activePowerups.map (fun q => q.id)).Nodup)
    (hmem : p ∈ s.activePowerups) :
    (t < p.expirationTime →
        p ∈ (update s t d).activePowerups ∧
        countFalse (update s t d) p.id = countFalse s p.id) ∧
    (p.expirationTime ≤ t →
        countId (update s t d).activePowerups p.id = 0 ∧
        countFalse (update s t d) p.id = countFalse s p.id + 1) := by
  obtain ⟨h1, h2⟩ := update_char s t d hnd
  constructor
  · intro hlt
    constructor
    · rw [h1]
      exact List.mem_filter.mpr ⟨hmem, by simp; omega⟩
    · unfold countFalse
      rw [h2, List.filter_append, List.length_append]
      have hzero : ((s.activePowerups.filter
          (fun q => decide (q.expirationTime ≤ t))).map
            (fun q => (⟨q.id, q.ptype, false⟩ : EffectCall))).filter
              (fun e => decide (e.apId = p.id) && !e.activating) = [] := by
        rw [List.filter_eq_nil_iff]
        intro e he
        rw [List.mem_map] at he
        obtain ⟨q, hq, rfl⟩ := he
        have hql : q ∈ s.activePowerups := List.mem_of_mem_filter hq
        intro hpred
        have hid : q.id = p.id := by simpa using hpred
        have hqp : q = p := List.inj_on_of_nodup_map hnd hql hmem hid
        subst hqp
        have hexp : q.expirationTime ≤ t :=
          of_decide_eq_true (List.mem_filter.mp hq).2
        omega
      rw [hzero]
      simp
  · intro hle
    constructor
    · rw [h1, countId_eq_zero_iff]
      intro q hq hqid
      have hql := List.mem_of_mem_filter hq
      have hqp : q = p := List.inj_on_of_nodup_map hnd hql hmem hqid
      subst hqp
      have hq2 := (List.mem_filter.mp hq).2
      simp at hq2
      omega
    · unfold countFalse
      rw [h2, List.filter_append, List.length_append, countFalseL_map_ev]
      have hcnt1 : countId (s.activePowerups.filter
          (fun q => decide (q.expirationTime ≤ t))) p.id = 1 := by
        have hpe : p ∈ s.activePowerups.filter
            (fun q => decide (q.expirationTime ≤ t)) :=
          List.mem_filter.mpr ⟨hmem, by simp [hle]⟩
        have hnde2 : ((s.activePowerups.filter
            (fun q => decide (q.expirationTime ≤ t))).map (fun q => q.id)).Nodup :=
          hnd.sublist ((List.filter_sublist _).map _)
        have hle1 := countId_le_one_of_nodup _ hnde2 p.id
        have hge := countId_pos_of_mem _ p hpe
        omega
      rw [hcnt1]

/-- Witness for C3 at a concrete one-entry state: sweeping exactly at the
expiration time removes the entry and logs one reversal. -/
theorem C3_update_deactivates_exactly_expired_witness :
    demoAp.expirationTime ≤ 1005 ∧
    countId (update demoState2 1005 16).activePowerups demoAp.id = 0 ∧
    countFalse (update demoState2 1005 16) demoAp.id
        = countFalse demoState2 demoAp.id + 1 :=
  ⟨by decide,
    (C3_update_deactivates_exactly_expired demoState2 1005 16 demoAp
      (by decide) (by decide)).2 (by decide)⟩

/-- A concrete second active powerup with a later expiration. -/
def demoAp3 : ActivePowerup :=
  { id := 3, ptype := "turbo", duration := 2995, expirationTime := 3000 }

/-- A concrete state with one expired and one unexpired entry (as of tick
1005). -/
def demoState4 : PState :=
  { demoState with activePowerups := [demoAp, demoAp3], nextId := 4 }

/-- C7: the sweep is eager: after update(time, delta) the active set holds no
entry with expirationTime <= time, even when several entries expire in the
same tick. -/
theorem C7_sweep_is_eager (s : PState) (t d : Nat)
    (hnd : (s.activePowerups.map (fun q => q.id)).Nodup) :
    ∀ p ∈ (update s t d).activePowerups, t < p.expirationTime := by
  intro p hp
  rw [(update_char s t d hnd).1] at hp
  have h2 := (List.mem_filter.mp hp).2
  simp at h2
  omega

/-- Witness for C7 at a concrete two-entry state: the surviving entry's
expiration lies after the sweep time. -/
theorem C7_sweep_is_eager_witness : (1005 : Nat) < demoAp3.expirationTime :=
  C7_sweep_is_eager demoState4 1005 16 (by decide) demoAp3 (by decide)

/-- Number of entries of the active set carrying a given powerup type. -/
def countType (l : List ActivePowerup) (ty : String) : Nat :=
  (l.filter (fun p => decide (p.ptype = ty))).length

/-- C8: activatePowerup has no duplicate-type guard: with a same-type entry
already active, activating another representation of that type appends a
second independent entry (the old entry untouched — no refresh, no ignore),
re-applies the effect, and leaves the type with at least two stacked
entries. -/
theorem C8_no_duplicate_guard (s : PState) (powerup : Representation)
    (p0 : ActivePowerup) (hmem : p0 ∈ s.activePowerups)
    (hty : p0.ptype = powerup.ptype) :
    (activatePowerup s powerup).activePowerups
        = s.activePowerups
            ++ [⟨s.nextId, powerup.ptype, powerup.duration, s.now + powerup.duration⟩] ∧
    p0 ∈ (activatePowerup s powerup).activePowerups ∧
    countType (activatePowerup s powerup).activePowerups powerup.ptype
        = countType s.activePowerups powerup.ptype + 1 ∧
    2 ≤ countType (activatePowerup s powerup).activePowerups powerup.ptype ∧
    (activatePowerup s powerup).effectLog
        = s.effectLog ++ [⟨s.nextId, powerup.ptype, true⟩] := by
  have hcount : countType (activatePowerup s powerup).activePowerups powerup.ptype
      = countType s.activePowerups powerup.ptype + 1 := by
    show countType (s.activePowerups ++ [_]) powerup.ptype = _
    unfold countType
    rw [List.filter_append]
    simp
  have hpos : 1 ≤ countType s.activePowerups powerup.ptype := by
    have hpf : p0 ∈ s.activePowerups.filter
        (fun p => decide (p.ptype = powerup.ptype)) :=
      List.mem_filter.mpr ⟨hmem, by simp [hty]⟩
    exact List.length_pos.mpr (List.ne_nil_of_mem hpf)
  exact ⟨rfl, List.mem_append_left _ hmem, hcount, by omega, rfl⟩

/-- Witness for C8 at a concrete state: activating a "speed" sprite while a
"speed" entry is already active leaves two stacked "speed" entries. -/
theorem C8_no_duplicate_guard_witness :
    demoAp ∈ demoState2.activePowerups ∧
    2 ≤ countType (activatePowerup demoState2 demoRep).activePowerups demoRep.ptype :=
  ⟨by decide,
    (C8_no_duplicate_guard demoState2 demoRep demoAp (by decide) (by decide)).2.2.2.1⟩

/-
For the temporal claim about timer/sweep interleavings, the host engine is
modelled as an adversarial scheduler: at each step it may spawn a powerup
(`create`), report a player/sprite overlap (`overlapHit`), deliver a
scheduled delayedCall (`timerFire`, which invokes `deactivatePowerup` on the
entry the timer was bound to — the delivery time is left to the scheduler,
which only makes the interleaving space larger), run the per-frame sweep
(`sweep` = `update`), or let the clock advance (`advance`).
-/

/-- One scheduler step the host engine can take against the manager. -/
inductive Op where
  | create (ptype : String) (x y : Int)
  | overlapHit (repId : Nat)
  | timerFire (timerIdx : Nat)
  | sweep (time : Nat) (delta : Nat)
  | advance (dt : Nat)
  deriving Repr, DecidableEq

/-- Semantics of one scheduler step. An overlap only activates an existing,
not-yet-consumed sprite (a disabled body no longer collides); a timer
delivery looks up the scheduled call and runs its bound
`deactivatePowerup(activePowerup, player)`. -/
def applyOp (s : PState) : Op → PState
  | .create ptype x y => createPowerup s ptype x y
  | .overlapHit repId =>
      match s.representations.find? (fun r => decide (r.id = repId)) with
      | none => s
      | some r => if r.disabled then s else activatePowerup s r
  | .timerFire i =>
      match s.timers[i]? with
      | none => s
      | some tm => deactivatePowerup s tm.apId
  | .sweep time delta => update s time delta
  | .advance dt => { s with now := s.now + dt }

/-- Runs a whole schedule of steps. -/
def run (s : PState) : List Op → PState
  | [] => s
  | op :: ops => run (applyOp s op) ops

/-- Invariant tracking one activated powerup `ap` and the index `i` of its
scheduled timer: `ap` is either still active (exactly one entry, no reversal
logged) or already deactivated (no entry, exactly one reversal logged); its
identity is in the already-used id range; its timer entry is still on file;
and any active entry carrying its identity is stamped with its expiration
time. -/
def Tracked (ap : ActivePowerup) (i : Nat) (s : PState) : Prop :=
  countId s.activePowerups ap.id + countFalse s ap.id = 1 ∧
  ap.id < s.nextId ∧
  (∃ tm, s.timers[i]? = some tm ∧ tm.apId = ap.id) ∧
  (∀ p ∈ s.activePowerups, p.id = ap.id → p.expirationTime = ap.expirationTime)

theorem removeFirstById_mem (l : List ActivePowerup) (a : Nat)
    (q : ActivePowerup) (r : List ActivePowerup)
    (h : removeFirstById l a = some (q, r)) : ∀ p ∈ r, p ∈ l := by
  induction l generalizing r with
  | nil => simp [removeFirstById] at h
  | cons p rest ih =>
      by_cases hp : p.id = a
      · simp only [removeFirstById, if_pos hp, Option.some.injEq, Prod.mk.injEq] at h
        obtain ⟨h1, h2⟩ := h
        subst h2
        exact fun x hx => List.mem_cons_of_mem _ hx
      · cases hr : removeFirstById rest a with
        | none => simp [removeFirstById, hp, hr] at h
        | some qr =>
            obtain ⟨q', r'⟩ := qr
            simp only [removeFirstById, if_neg hp, hr, Option.some.injEq,
              Prod.mk.injEq] at h
            obtain ⟨h1, h2⟩ := h
            subst h1; subst h2
            intro x hx
            rcases List.mem_cons.mp hx with rfl | hx'
            · exact List.mem_cons_self _ _
            · exact List.mem_cons_of_mem _ (ih r' hr x hx')

theorem countId_append_singleton (l : List ActivePowerup) (p : ActivePowerup)
    (a : Nat) :
    countId (l ++ [p]) a = countId l a + (if p.id = a then 1 else 0) := by
  unfold countId
  rw [List.filter_append, List.length_append]
  by_cases hp : p.id = a <;> simp [hp]

theorem countFalse_effectLog_congr (s s' : PState) (a : Nat)
    (h : s'.effectLog = s.effectLog) : countFalse s' a = countFalse s a := by
  unfold countFalse
  rw [h]

theorem countFalse_append_one (s s' : PState) (e : EffectCall) (a : Nat)
    (h : s'.effectLog = s.effectLog ++ [e]) :
    countFalse s' a
      = countFalse s a + (if e.apId = a ∧ e.activating = false then 1 else 0) := by
  unfold countFalse
  rw [h, List.filter_append, List.length_append]
  by_cases h1 : e.apId = a <;> by_cases h2 : e.activating <;> simp [h1, h2]

theorem exists_of_countId_pos (l : List ActivePowerup) (a : Nat)
    (h : 1 ≤ countId l a) : ∃ q ∈ l, q.id = a := by
  by_contra hc
  push_neg at hc
  have := (countId_eq_zero_iff l a).mpr hc
  omega

theorem deactivatePowerup_countId_le (s : PState) (b a : Nat) :
    countId (deactivatePowerup s b).activePowerups a ≤ countId s.activePowerups a := by
  cases h : removeFirstById s.activePowerups b with
  | none => unfold deactivatePowerup; rw [h]
  | some qr =>
      obtain ⟨q, r⟩ := qr
      have hstate : (deactivatePowerup s b).activePowerups = r := by
        unfold deactivatePowerup; rw [h]
      rw [hstate]
      by_cases hab : a = b
      · subst hab
        have := removeFirstById_countId_self _ _ _ _ h
        omega
      · rw [removeFirstById_countId_other _ _ _ _ _ h hab]

theorem foldl_deactivate_countId_le (es : List ActivePowerup) (s : PState) (a : Nat) :
    countId ((es.foldl (fun st p => deactivatePowerup st p.id) s)).activePowerups a
      ≤ countId s.activePowerups a := by
  induction es generalizing s with
  | nil => simp
  | cons e es ih =>
      simp only [List.foldl_cons]
      exact le_trans (ih (deactivatePowerup s e.id)) (deactivatePowerup_countId_le s e.id a)

theorem deactivatePowerup_frame (s : PState) (b : Nat) :
    (deactivatePowerup s b).powerupData = s.powerupData ∧
    (deactivatePowerup s b).representations = s.representations ∧
    (deactivatePowerup s b).timers = s.timers ∧
    (deactivatePowerup s b).now = s.now ∧
    (deactivatePowerup s b).nextId = s.nextId := by
  cases h : removeFirstById s.activePowerups b with
  | none => unfold deactivatePowerup; rw [h]; exact ⟨rfl, rfl, rfl, rfl, rfl⟩
  | some qr =>
      obtain ⟨q, r⟩ := qr
      unfold deactivatePowerup; rw [h]; exact ⟨rfl, rfl, rfl, rfl, rfl⟩

theorem foldl_deactivate_frame (es : List ActivePowerup) (s : PState) :
    ((es.foldl (fun st p => deactivatePowerup st p.id) s)).timers = s.timers ∧
    ((es.foldl (fun st p => deactivatePowerup st p.id) s)).nextId = s.nextId := by
  induction es generalizing s with
  | nil => exact ⟨rfl, rfl⟩
  | cons e es ih =>
      simp only [List.foldl_cons]
      obtain ⟨h1, h2⟩ := ih (deactivatePowerup s e.id)
      obtain ⟨_, _, h3, _, h4⟩ := deactivatePowerup_frame s e.id
      exact ⟨h1.trans h3, h2.trans h4⟩

theorem deactivatePowerup_tracked (ap : ActivePowerup) (i : Nat) (s : PState)
    (b : Nat) (h : Tracked ap i s) : Tracked ap i (deactivatePowerup s b) := by
  obtain ⟨hsum, hfresh, htimer, hexp⟩ := h
  cases hr : removeFirstById s.activePowerups b with
  | none =>
      have hs : deactivatePowerup s b = s := by unfold deactivatePowerup; rw [hr]
      rw [hs]
      exact ⟨hsum, hfresh, htimer, hexp⟩
  | some qr =>
      obtain ⟨q, r⟩ := qr
      have hstate : deactivatePowerup s b
          = { s with activePowerups := r,
                     effectLog := s.effectLog ++ [⟨b, q.ptype, false⟩] } := by
        unfold deactivatePowerup; rw [hr]
      have hlog : (deactivatePowerup s b).effectLog
          = s.effectLog ++ [⟨b, q.ptype, false⟩] := by rw [hstate]
      have hcf := countFalse_append_one s (deactivatePowerup s b) ⟨b, q.ptype, false⟩
        ap.id hlog
      have hact : (deactivatePowerup s b).activePowerups = r := by rw [hstate]
      refine ⟨?_, ?_, ?_, ?_⟩
      · rw [hact, hcf]
        by_cases hab : b = ap.id
        · subst hab
          have h1 := removeFirstById_countId_self _ _ _ _ hr
          have hone : (if (⟨ap.id, q.ptype, false⟩ : EffectCall).apId = ap.id ∧
              (⟨ap.id, q.ptype, false⟩ : EffectCall).activating = false
              then 1 else 0) = 1 := by simp
          rw [hone]
          omega
        · have h1 := removeFirstById_countId_other _ _ ap.id _ _ hr (Ne.symm hab)
          have hzero : (if (⟨b, q.ptype, false⟩ : EffectCall).apId = ap.id ∧
              (⟨b, q.ptype, false⟩ : EffectCall).activating = false
              then 1 else 0) = 0 := by simp [hab]
          rw [hzero]
          omega
      · rw [hstate]; exact hfresh
      · rw [hstate]; exact htimer
      · rw [hact]
        intro p hp hpid
        exact hexp p (removeFirstById_mem _ _ _ _ hr p hp) hpid

theorem activatePowerup_tracked (ap : ActivePowerup) (i : Nat) (s : PState)
    (rep : Representation) (h : Tracked ap i s) :
    Tracked ap i (activatePowerup s rep) := by
  obtain ⟨hsum, hfresh, htimer, hexp⟩ := h
  have hact : (activatePowerup s rep).activePowerups
      = s.activePowerups
          ++ [⟨s.nextId, rep.ptype, rep.duration, s.now + rep.duration⟩] := rfl
  have hlog : (activatePowerup s rep).effectLog
      = s.effectLog ++ [⟨s.nextId, rep.ptype, true⟩] := rfl
  refine ⟨?_, ?_, ?_, ?_⟩
  · rw [hact, countId_append_singleton,
        countFalse_append_one s _ ⟨s.nextId, rep.ptype, true⟩ ap.id hlog]
    have hne : ¬ ((⟨s.nextId, rep.ptype, rep.duration, s.now + rep.duration⟩
        : ActivePowerup).id = ap.id) := by
      show ¬ (s.nextId = ap.id)
      omega
    rw [if_neg hne, if_neg (by simp)]
    omega
  · show ap.id < s.nextId + 1
    omega
  · obtain ⟨tm, htm, htma⟩ := htimer
    refine ⟨tm, ?_, htma⟩
    show (s.timers ++ [_])[i]? = some tm
    have hi : i < s.timers.length := (List.getElem?_eq_some.mp htm).1
    rw [List.getElem?_append_left hi]
    exact htm
  · rw [hact]
    intro p hp hpid
    rcases List.mem_append.mp hp with hp1 | hp2
    · exact hexp p hp1 hpid
    · simp only [List.mem_singleton] at hp2
      subst hp2
      exact absurd hpid (by show ¬ (s.nextId = ap.id); omega)

theorem createPowerup_tracked (ap : ActivePowerup) (i : Nat) (s : PState)
    (ptype : String) (x y : Int) (h : Tracked ap i s) :
    Tracked ap i (createPowerup s ptype x y) := by
  obtain ⟨hsum, hfresh, htimer, hexp⟩ := h
  cases hl : s.powerupData.lookup ptype with
  | none =>
      have hc : createPowerup s ptype x y
          = { s with warnings := s.warnings ++ [warnMsg ptype] } := by
        unfold createPowerup; rw [hl]
      rw [hc]
      exact ⟨hsum, hfresh, htimer, hexp⟩
  | some d0 =>
      have hc : createPowerup s ptype x y
          = { s with
                representations := s.representations
                  ++ [{ id := s.nextId, x := x, y := y, spriteKey := d0.spriteKey,
                        ptype := ptype, duration := d0.duration, disabled := false }],
                overlapWatches := s.overlapWatches ++ [s.nextId],
                nextId := s.nextId + 1 } := by
        unfold createPowerup; rw [hl]
      rw [hc]
      refine ⟨hsum, ?_, htimer, hexp⟩
      show ap.id < s.nextId + 1
      omega

theorem foldl_deactivate_tracked (ap : ActivePowerup) (i : Nat)
    (es : List ActivePowerup) (s : PState) (h : Tracked ap i s) :
    Tracked ap i (es.foldl (fun st p => deactivatePowerup st p.id) s) := by
  induction es generalizing s with
  | nil => exact h
  | cons e es ih => exact ih _ (deactivatePowerup_tracked ap i s e.id h)

theorem update_tracked (ap : ActivePowerup) (i : Nat) (s : PState) (t dlt : Nat)
    (h : Tracked ap i s) : Tracked ap i (update s t dlt) :=
  foldl_deactivate_tracked ap i _ s h

theorem applyOp_tracked (ap : ActivePowerup) (i : Nat) (s : PState) (op : Op)
    (h : Tracked ap i s) : Tracked ap i (applyOp s op) := by
  cases op with
  | create ptype x y => exact createPowerup_tracked ap i s ptype x y h
  | overlapHit repId =>
      show Tracked ap i
        (match s.representations.find? (fun r => decide (r.id = repId)) with
          | none => s
          | some r => if r.disabled then s else activatePowerup s r)
      cases s.representations.find? (fun r => decide (r.id = repId)) with
      | none => exact h
      | some r =>
          cases hd : r.disabled with
          | false => simpa [hd] using activatePowerup_tracked ap i s r h
          | true => simpa [hd] using h
  | timerFire j =>
      show Tracked ap i
        (match s.timers[j]? with
          | none => s
          | some tm => deactivatePowerup s tm.apId)
      cases htm : s.timers[j]? with
      | none => exact h
      | some tm => exact deactivatePowerup_tracked ap i s tm.apId h
  | sweep t dlt => exact update_tracked ap i s t dlt h
  | advance dt => exact h

theorem run_tracked (ap : ActivePowerup) (i : Nat) (ops : List Op) (s : PState)
    (h : Tracked ap i s) : Tracked ap i (run s ops) := by
  induction ops generalizing s with
  | nil => exact h
  | cons op ops ih => exact ih _ (applyOp_tracked ap i s op h)

theorem run_append (s : PState) (l1 l2 : List Op) :
    run s (l1 ++ l2) = run (run s l1) l2 := by
  induction l1 generalizing s with
  | nil => rfl
  | cons op l1 ih => exact ih (applyOp s op)

theorem timerFire_kills (ap : ActivePowerup) (i : Nat) (s : PState)
    (h : Tracked ap i s) :
    countId (applyOp s (Op.timerFire i)).activePowerups ap.id = 0 := by
  obtain ⟨hsum, hfresh, ⟨tm, htm, htma⟩, hexp⟩ := h
  show countId
    (match s.timers[i]? with
      | none => s
      | some tm => deactivatePowerup s tm.apId).activePowerups ap.id = 0
  rw [htm]
  show countId (deactivatePowerup s tm.apId).activePowerups ap.id = 0
  rw [htma]
  cases hr : removeFirstById s.activePowerups ap.id with
  | none =>
      have h0 := (countId_eq_zero_iff _ _).mpr ((removeFirstById_none_iff _ _).mp hr)
      have hs : deactivatePowerup s ap.id = s := by unfold deactivatePowerup; rw [hr]
      rw [hs]; exact h0
  | some qr =>
      obtain ⟨q, r⟩ := qr
      have hself := removeFirstById_countId_self _ _ _ _ hr
      have hx : (deactivatePowerup s ap.id).activePowerups = r := by
        unfold deactivatePowerup; rw [hr]
      rw [hx]
      omega

theorem foldl_deact_kills (es : List ActivePowerup) (s : PState) (a : Nat)
    (hc : countId s.activePowerups a ≤ 1)
    (he : ∃ e ∈ es, e.id = a) :
    countId ((es.foldl (fun st p => deactivatePowerup st p.id) s)).activePowerups a
      = 0 := by
  induction es generalizing s with
  | nil =>
      obtain ⟨e, he', _⟩ := he
      cases he'
  | cons e es ih =>
      simp only [List.foldl_cons]
      by_cases hea : e.id = a
      · have hdead : countId (deactivatePowerup s e.id).activePowerups a = 0 := by
          rw [hea]
          cases hr : removeFirstById s.activePowerups a with
          | none =>
              have h0 := (countId_eq_zero_iff _ _).mpr
                ((removeFirstById_none_iff _ _).mp hr)
              have hs : deactivatePowerup s a = s := by
                unfold deactivatePowerup; rw [hr]
              rw [hs]; exact h0
          | some qr =>
              obtain ⟨q, r⟩ := qr
              have hself := removeFirstById_countId_self _ _ _ _ hr
              have hx : (deactivatePowerup s a).activePowerups = r := by
                unfold deactivatePowerup; rw [hr]
              rw [hx]
              omega
        have hle := foldl_deactivate_countId_le es (deactivatePowerup s e.id) a
        omega
      · obtain ⟨e', he', hea'⟩ := he
        rcases List.mem_cons.mp he' with rfl | hes
        · exact absurd hea' hea
        · exact ih (deactivatePowerup s e.id)
            (le_trans (deactivatePowerup_countId_le s e.id a) hc) ⟨e', hes, hea'⟩

theorem sweep_kills (ap : ActivePowerup) (i : Nat) (s : PState) (t dlt : Nat)
    (h : Tracked ap i s) (hexp_le : ap.expirationTime ≤ t) :
    countId (update s t dlt).activePowerups ap.id = 0 := by
  obtain ⟨hsum, hfresh, htimer, hexp⟩ := h
  by_cases hz : countId s.activePowerups ap.id = 0
  · have hle : countId (update s t dlt).activePowerups ap.id
        ≤ countId s.activePowerups ap.id :=
      foldl_deactivate_countId_le
        (s.activePowerups.filter (fun p => decide (p.expirationTime ≤ t))) s ap.id
    omega
  · have hpos : 1 ≤ countId s.activePowerups ap.id := by omega
    obtain ⟨q, hq, hqid⟩ := exists_of_countId_pos _ _ hpos
    have hqe : q.expirationTime = ap.expirationTime := hexp q hq hqid
    have hqes : q ∈ s.activePowerups.filter (fun p => decide (p.expirationTime ≤ t)) :=
      List.mem_filter.mpr ⟨hq, by simp [hqe]; omega⟩
    exact foldl_deact_kills _ s ap.id (by omega) ⟨q, hqes, hqid⟩

theorem applyOp_nextId_mono (s : PState) (op : Op) :
    s.nextId ≤ (applyOp s op).nextId := by
  cases op with
  | create ptype x y =>
      show s.nextId ≤ (createPowerup s ptype x y).nextId
      cases hl : s.powerupData.lookup ptype with
      | none =>
          have hc : (createPowerup s ptype x y).nextId = s.nextId := by
            unfold createPowerup; rw [hl]
          omega
      | some d0 =>
          have hc : (createPowerup s ptype x y).nextId = s.nextId + 1 := by
            unfold createPowerup; rw [hl]
          omega
  | overlapHit repId =>
      cases hfind : s.representations.find? (fun r => decide (r.id = repId)) with
      | none =>
          have heq : applyOp s (Op.overlapHit repId) = s := by
            show (match s.representations.find? (fun r => decide (r.id = repId)) with
              | none => s
              | some r => if r.disabled then s else activatePowerup s r) = s
            rw [hfind]
          rw [heq]
      | some r =>
          have heq : applyOp s (Op.overlapHit repId)
              = if r.disabled then s else activatePowerup s r := by
            show (match s.representations.find? (fun r => decide (r.id = repId)) with
              | none => s
              | some r => if r.disabled then s else activatePowerup s r)
              = if r.disabled then s else activatePowerup s r
            rw [hfind]
          rw [heq]
          cases hd : r.disabled with
          | true => exact le_refl _
          | false =>
              show s.nextId ≤ s.nextId + 1
              omega
  | timerFire j =>
      show s.nextId ≤
        (match s.timers[j]? with
          | none => s
          | some tm => deactivatePowerup s tm.apId).nextId
      cases htm : s.timers[j]? with
      | none => exact le_refl _
      | some tm =>
          have := (deactivatePowerup_frame s tm.apId).2.2.2.2
          show s.nextId ≤ (deactivatePowerup s tm.apId).nextId
          omega
  | sweep t dlt =>
      have h2 : (update s t dlt).nextId = s.nextId :=
        (foldl_deactivate_frame
          (s.activePowerups.filter (fun p => decide (p.expirationTime ≤ t))) s).2
      show s.nextId ≤ (update s t dlt).nextId
      omega
  | advance dt => exact le_refl _

theorem applyOp_dead (ap : ActivePowerup) (s : PState) (op : Op)
    (hfresh : ap.id < s.nextId)
    (hd : countId s.activePowerups ap.id = 0) :
    countId (applyOp s op).activePowerups ap.id = 0 := by
  cases op with
  | create ptype x y =>
      show countId (createPowerup s ptype x y).activePowerups ap.id = 0
      cases hl : s.powerupData.lookup ptype with
      | none =>
          have hc : (createPowerup s ptype x y).activePowerups = s.activePowerups := by
            unfold createPowerup; rw [hl]
          rw [hc]; exact hd
      | some d0 =>
          have hc : (createPowerup s ptype x y).activePowerups = s.activePowerups := by
            unfold createPowerup; rw [hl]
          rw [hc]; exact hd
  | overlapHit repId =>
      cases hfind : s.representations.find? (fun r => decide (r.id = repId)) with
      | none =>
          have heq : applyOp s (Op.overlapHit repId) = s := by
            show (match s.representations.find? (fun r => decide (r.id = repId)) with
              | none => s
              | some r => if r.disabled then s else activatePowerup s r) = s
            rw [hfind]
          rw [heq]
          exact hd
      | some r =>
          have heq : applyOp s (Op.overlapHit repId)
              = if r.disabled then s else activatePowerup s r := by
            show (match s.representations.find? (fun r => decide (r.id = repId)) with
              | none => s
              | some r => if r.disabled then s else activatePowerup s r)
              = if r.disabled then s else activatePowerup s r
            rw [hfind]
          rw [heq]
          cases hdis : r.disabled with
          | true => exact hd
          | false =>
              show countId (activatePowerup s r).activePowerups ap.id = 0
              have hx : (activatePowerup s r).activePowerups
                  = s.activePowerups
                      ++ [⟨s.nextId, r.ptype, r.duration, s.now + r.duration⟩] := rfl
              have hne : ¬ ((⟨s.nextId, r.ptype, r.duration, s.now + r.duration⟩
                  : ActivePowerup).id = ap.id) := by
                show ¬ (s.nextId = ap.id)
                omega
              rw [hx, countId_append_singleton, if_neg hne]
              omega
  | timerFire j =>
      show countId
        (match s.timers[j]? with
          | none => s
          | some tm => deactivatePowerup s tm.apId).activePowerups ap.id = 0
      cases htm : s.timers[j]? with
      | none => exact hd
      | some tm =>
          have := deactivatePowerup_countId_le s tm.apId ap.id
          show countId (deactivatePowerup s tm.apId).activePowerups ap.id = 0
          omega
  | sweep t dlt =>
      have hle : countId (update s t dlt).activePowerups ap.id
          ≤ countId s.activePowerups ap.id :=
        foldl_deactivate_countId_le
          (s.activePowerups.filter (fun p => decide (p.expirationTime ≤ t))) s ap.id
      show countId (update s t dlt).activePowerups ap.id = 0
      omega
  | advance dt => exact hd

theorem run_dead (ap : ActivePowerup) (ops : List Op) (s : PState)
    (hfresh : ap.id < s.nextId)
    (hd : countId s.activePowerups ap.id = 0) :
    countId (run s ops).activePowerups ap.id = 0 := by
  induction ops generalizing s with
  | nil => exact hd
  | cons op ops ih =>
      exact ih (applyOp s op) (lt_of_lt_of_le hfresh (applyOp_nextId_mono s op))
        (applyOp_dead ap s op hfresh hd)

/-- C2: along any scheduler interleaving of timer deliveries, sweeps, spawns,
overlaps, and clock advances started from a state where activation has just
installed the tracked entry, its reversal effect is logged at most once; and
it is logged exactly once as soon as the interleaving contains its scheduled
timer delivery, or any sweep at a time at or past its expiration — the entry
makes a single Active-to-Deactivated transition and is never deactivated
twice. -/
theorem C2_exactly_one_reversal (s0 : PState) (ap : ActivePowerup) (i : Nat)
    (ops : List Op) (h0 : Tracked ap i s0) :
    countFalse (run s0 ops) ap.id ≤ 1 ∧
    (Op.timerFire i ∈ ops → countFalse (run s0 ops) ap.id = 1) ∧
    (∀ t dlt, Op.sweep t dlt ∈ ops → ap.expirationTime ≤ t →
        countFalse (run s0 ops) ap.id = 1) := by
  obtain ⟨hsum, hfr, hti, hex⟩ := run_tracked ap i ops s0 h0
  refine ⟨by omega, ?_, ?_⟩
  · intro hmem
    obtain ⟨l1, l2, rfl⟩ := List.append_of_mem hmem
    have hrun : run s0 (l1 ++ Op.timerFire i :: l2)
        = run (applyOp (run s0 l1) (Op.timerFire i)) l2 := by
      rw [run_append]
      rfl
    have ht1 := run_tracked ap i l1 s0 h0
    have hkill := timerFire_kills ap i (run s0 l1) ht1
    have htrack2 := applyOp_tracked ap i (run s0 l1) (Op.timerFire i) ht1
    have hdead := run_dead ap l2 _ htrack2.2.1 hkill
    rw [hrun] at hsum ⊢
    omega
  · intro t dlt hmem hle
    obtain ⟨l1, l2, rfl⟩ := List.append_of_mem hmem
    have hrun : run s0 (l1 ++ Op.sweep t dlt :: l2)
        = run (applyOp (run s0 l1) (Op.sweep t dlt)) l2 := by
      rw [run_append]
      rfl
    have ht1 := run_tracked ap i l1 s0 h0
    have hkill : countId (applyOp (run s0 l1) (Op.sweep t dlt)).activePowerups ap.id
        = 0 := sweep_kills ap i (run s0 l1) t dlt ht1 hle
    have htrack2 := applyOp_tracked ap i (run s0 l1) (Op.sweep t dlt) ht1
    have hdead := run_dead ap l2 _ htrack2.2.1 hkill
    rw [hrun] at hsum ⊢
    omega

/-- Witness for C2 at a concrete state: timer delivery, then a sweep at the
expiration tick, then a stale timer redelivery — the reversal is logged
exactly once. -/
theorem C2_exactly_one_reversal_witness :
    countFalse
      (run demoState2 [Op.timerFire 0, Op.sweep 1005 16, Op.timerFire 0])
      demoAp.id = 1 :=
  (C2_exactly_one_reversal demoState2 demoAp 0
      [Op.timerFire 0, Op.sweep 1005 16, Op.timerFire 0]
      ⟨by decide, by decide, ⟨⟨1005, 1⟩, by decide, by decide⟩, by decide⟩).2.1
    (by decide)

end Powerups
